import Mathlib

/-!
Verification development for the ai-hedge-fund service of the gICM
repository.  The definitions below are shallow embeddings of
`src/workflow/trading_graph.py` (multi-agent orchestrator) and
`src/backtesting/engine.py` (backtest simulator).  Machine floats of the
source are modelled as exact rationals; the only real-valued quantity is
the Sharpe ratio, whose square root forces `ℝ`.
-/

namespace GICM

/-- Signal produced by one strategy invocation.  The base strategy module
itself is not part of the analysed sources; the record follows the Signal
data model of the specification, restricted to the fields the orchestrator
consumes (`agent_name`, `action`, `confidence`). -/
structure AgentSignal where
  agent_name : String
  action : String
  confidence : ℚ
  deriving DecidableEq

/-- Embedding of `TradingGraph._calculate_sentiment`: count of signals with
`action == "bullish"`. -/
def bullish_count (signals : List AgentSignal) : Nat :=
  signals.countP (fun s => s.action == "bullish")

/-- Embedding of `TradingGraph._calculate_sentiment`: count of signals with
`action == "bearish"`. -/
def bearish_count (signals : List AgentSignal) : Nat :=
  signals.countP (fun s => s.action == "bearish")

/-- Embedding of `TradingGraph._calculate_sentiment` from
`trading_graph.py` lines 232-248: empty list returns `"neutral"`, then the
four-way comparison of the bullish/bearish counts. -/
def calculate_sentiment (signals : List AgentSignal) : String :=
  if signals = [] then "neutral"
  else
    let bullish := bullish_count signals
    let bearish := bearish_count signals
    if bullish > bearish * 2 then "very_bullish"
    else if bullish > bearish then "bullish"
    else if bearish > bullish * 2 then "very_bearish"
    else if bearish > bullish then "bearish"
    else "neutral"

/-- Classification written from the words of the specification: with
b = count(bullish) and r = count(bearish): b > 2r gives very_bullish,
then b > r bullish, then r > 2b very_bearish, then r > b bearish,
otherwise neutral. -/
def spec_sentiment (b r : Nat) : String :=
  if b > 2 * r then "very_bullish"
  else if b > r then "bullish"
  else if r > 2 * b then "very_bearish"
  else if r > b then "bearish"
  else "neutral"

/-- Embedding of the average-confidence expression of
`TradingGraph.analyze` (line 145) and `TradingGraph.quick_signal`
(line 195): `sum(s.confidence for s in signals) / len(signals) if signals
else 0`. -/
def avg_confidence (signals : List AgentSignal) : ℚ :=
  if signals = [] then 0
  else (signals.map (fun s => s.confidence)).sum / (signals.length : ℚ)

/-- Analysis modes of the orchestrator. -/
inductive Mode
  | full
  | fast
  | degen
  deriving DecidableEq

/-- The twelve strategies instantiated by `TradingGraph.__post_init__`. -/
inductive Strategy
  | warrenBuffett
  | michaelBurry
  | charlieMunger
  | cathieWood
  | billAckman
  | degen
  | solanaSpecialist
  | whaleWatcher
  | pumpTrader
  | onChainAnalyst
  | riskManager
  | portfolioManager
  deriving DecidableEq

/-- Persona roster of `TradingGraph.__post_init__` (lines 65-75): Buffett
and Burry always, plus Munger, Wood and Ackman in full mode. -/
def persona_agents (mode : Mode) : List Strategy :=
  [Strategy.warrenBuffett, Strategy.michaelBurry] ++
    (if mode = Mode.full
      then [Strategy.charlieMunger, Strategy.cathieWood, Strategy.billAckman]
      else [])

/-- Crypto roster of `TradingGraph.__post_init__` (lines 78-93): degen mode
gets a fixed list of three; otherwise the base list of four, plus the pump
trader in full mode. -/
def crypto_agents (mode : Mode) : List Strategy :=
  if mode = Mode.degen
    then [Strategy.degen, Strategy.pumpTrader, Strategy.solanaSpecialist]
    else [Strategy.degen, Strategy.solanaSpecialist, Strategy.whaleWatcher,
            Strategy.onChainAnalyst] ++
          (if mode = Mode.full then [Strategy.pumpTrader] else [])

/-- Management roster of `TradingGraph.__post_init__` (lines 96-99): the
risk manager and the portfolio manager, in every mode. -/
def management_agents : List Strategy :=
  [Strategy.riskManager, Strategy.portfolioManager]

/-- Collection loop of `TradingGraph._run_agents_parallel` (lines 222-230):
`asyncio.gather` hands back one result or exception per dispatched
strategy, in task order; successes are appended, exceptions only logged. -/
def collect_results : List (Except String AgentSignal) → List AgentSignal
  | [] => []
  | Except.ok s :: rest => s :: collect_results rest
  | Except.error _ :: rest => collect_results rest

/-- Join of `TradingGraph.analyze` (line 139): persona results collected
first, then crypto results, concatenated in that order. -/
def all_signals (persona_results crypto_results : List (Except String AgentSignal)) :
    List AgentSignal :=
  collect_results persona_results ++ collect_results crypto_results

/-- Market-data snapshot as consumed by `TradingGraph.analyze` and
`TradingGraph.quick_signal`: only the presence and value of the `price`
field matter to the short-circuit. -/
structure MarketData where
  price : Option ℚ
  deriving DecidableEq

/-- Python truthiness test `not market_data.get("price")` of
`trading_graph.py` line 116: true when the key is missing (`None`) and
also when the stored price is numerically zero. -/
def price_falsy (md : MarketData) : Bool :=
  match md.price with
  | none => true
  | some p => p == 0

/-- Outcome of the guard at the head of `TradingGraph.analyze`
(lines 114-121): either the error record carrying token and chain, or
control proceeds to the strategy fan-out. -/
inductive AnalyzeGate
  | errorResult (token chain : String)
  | proceed
  deriving DecidableEq

/-- Embedding of the short-circuit of `TradingGraph.analyze`
(lines 114-121). -/
def analyze_gate (token chain : String) (md : MarketData) : AnalyzeGate :=
  if price_falsy md then AnalyzeGate.errorResult token chain
  else AnalyzeGate.proceed

/-- One trade of the backtest simulator (`engine.py` dataclass `Trade`).
Timestamps are seconds since the epoch. -/
structure Trade where
  token : String
  action : String
  price : ℚ
  size : ℚ
  timestamp : Int
  signal_confidence : ℚ
  pnl : ℚ := 0
  pnl_pct : ℚ := 0
  closed : Bool := false
  close_price : Option ℚ := none
  close_timestamp : Option Int := none
  deriving DecidableEq

/-- One OHLC bar as consumed by `BacktestEngine.run_backtest`; only the
timestamp and the close are read by the simulation loop. -/
structure Candle where
  timestamp : Int
  close : ℚ
  deriving DecidableEq

/-- One entry of the `signals` argument of `run_backtest`: a dict whose
`timestamp`, `action` and `confidence` keys may each be missing
(`signal.get` with defaults `None`, `""` and `50`). -/
structure SignalDict where
  timestamp : Option Int
  action : Option String
  confidence : Option ℚ
  deriving DecidableEq

/-- One point of the equity curve. -/
structure EquityPoint where
  timestamp : Int
  equity : ℚ
  price : ℚ
  deriving DecidableEq

/-- Constructor parameters of `BacktestEngine.__init__`. -/
structure EngineConfig where
  initial_balance : ℚ
  position_size_pct : ℚ
  stop_loss_pct : ℚ
  take_profit_pct : ℚ
  deriving DecidableEq

/-- Mutable locals of the simulation loop of `run_backtest`
(lines 134-139): balance, the at-most-one open position, the realized
trade list, the equity curve, and the running peak. -/
structure BtState where
  balance : ℚ
  position : Option Trade
  trades : List Trade
  equity_curve : List EquityPoint
  peak_balance : ℚ
  deriving DecidableEq

/-- Unrealized pnl in percent of `run_backtest` lines 148-151 (also
recomputed at lines 198-201 and 217-220): buy positions gain when price
rises, sell positions when it falls. -/
def unrealized_pnl_pct (pos : Trade) (current_price : ℚ) : ℚ :=
  if pos.action = "buy"
    then ((current_price - pos.price) / pos.price) * 100
    else ((pos.price - current_price) / pos.price) * 100

/-- The same unrealized return expressed as a fraction of the entry
value, the unit in which realized pnl is credited (`size * (pct / 100)`). -/
def frac_return (pos : Trade) (current_price : ℚ) : ℚ :=
  unrealized_pnl_pct pos current_price / 100

/-- Field updates applied to a position when it closes (`run_backtest`
lines 155-159, 166-170 and 222-226): mark closed, record close price and
timestamp, store the percent return and the realized pnl
`size * (pct / 100)`. -/
def close_trade (pos : Trade) (price : ℚ) (ts : Int) (pct : ℚ) : Trade :=
  { pos with
      closed := true
      close_price := some price
      close_timestamp := some ts
      pnl_pct := pct
      pnl := pos.size * (pct / 100) }

/-- Exit phase of one bar (`run_backtest` lines 146-173): with a position
open, a stop-loss close when the percent return is at most
`-stop_loss_pct`, otherwise a take-profit close when it is at least
`take_profit_pct`; a close credits `size + pnl` back to the balance and
appends the trade. -/
def exit_phase (cfg : EngineConfig) (candle : Candle) (st : BtState) : BtState :=
  match st.position with
  | none => st
  | some pos =>
      let u := unrealized_pnl_pct pos candle.close
      if u ≤ -cfg.stop_loss_pct then
        let p := close_trade pos candle.close candle.timestamp u
        { st with
            balance := st.balance + p.size + p.pnl
            trades := st.trades ++ [p]
            position := none }
      else if u ≥ cfg.take_profit_pct then
        let p := close_trade pos candle.close candle.timestamp u
        { st with
            balance := st.balance + p.size + p.pnl
            trades := st.trades ++ [p]
            position := none }
      else st

/-- Python `str.lower()` as applied to the action strings of the signal
dicts, mapped over the characters (`Char.toLower` lowers the basic latin
letters, which covers the ASCII action keywords the engine compares
against). -/
def lower_string (s : String) : String :=
  String.mk (s.data.map Char.toLower)

/-- One iteration of the signal scan of `run_backtest` (lines 176-193):
a signal with a present timestamp within one hour of the bar, confidence
at least 60 (default 50), lowercased action `buy` or `bullish`, and no
open position, opens a buy position sized at `position_size_pct` of the
balance at the current close, debiting the balance. -/
def scan_signal (cfg : EngineConfig) (token_id : String) (candle : Candle)
    (st : BtState) (sig : SignalDict) : BtState :=
  match sig.timestamp with
  | none => st
  | some t =>
      if (t - candle.timestamp).natAbs < 3600 then
        let action := lower_string (sig.action.getD "")
        let confidence := sig.confidence.getD 50
        if 60 ≤ confidence ∧ (action = "buy" ∨ action = "bullish") ∧
            st.position = none then
          let size := st.balance * (cfg.position_size_pct / 100)
          { st with
              position := some
                { token := token_id
                  action := "buy"
                  price := candle.close
                  size := size
                  timestamp := candle.timestamp
                  signal_confidence := confidence }
              balance := st.balance - size }
        else st
      else st

/-- Equity tracking of `run_backtest` (lines 196-212): balance plus the
marked-to-market value of an open position, appended to the curve, and the
running peak updated. -/
def equity_phase (candle : Candle) (st : BtState) : BtState :=
  let current_equity := st.balance +
    (match st.position with
      | some pos => pos.size * (1 + unrealized_pnl_pct pos candle.close / 100)
      | none => 0)
  { st with
      equity_curve := st.equity_curve ++
        [{ timestamp := candle.timestamp, equity := current_equity,
           price := candle.close }]
      peak_balance := if current_equity > st.peak_balance
        then current_equity else st.peak_balance }

/-- One full iteration of the candle loop of `run_backtest`
(lines 142-212): exit checks first, then the scan over the whole signal
timeline, then equity tracking. -/
def step_candle (cfg : EngineConfig) (token_id : String)
    (signals : List SignalDict) (st : BtState) (candle : Candle) : BtState :=
  equity_phase candle
    (signals.foldl (scan_signal cfg token_id candle) (exit_phase cfg candle st))

/-- Loop initialisation of `run_backtest` (lines 134-139). -/
def init_state (cfg : EngineConfig) : BtState :=
  { balance := cfg.initial_balance
    position := none
    trades := []
    equity_curve := []
    peak_balance := cfg.initial_balance }

/-- The candle loop of `run_backtest`. -/
def process_candles (cfg : EngineConfig) (token_id : String)
    (signals : List SignalDict) (candles : List Candle) : BtState :=
  candles.foldl (step_candle cfg token_id signals) (init_state cfg)

/-- Forced close of a position still open after the last bar
(`run_backtest` lines 214-228), at the final close price. -/
def force_close (st : BtState) (candles : List Candle) : BtState :=
  match st.position, candles.getLast? with
  | some pos, some last =>
      let pct := unrealized_pnl_pct pos last.close
      let p := close_trade pos last.close last.timestamp pct
      { st with
          balance := st.balance + p.size + p.pnl
          trades := st.trades ++ [p]
          position := none }
  | _, _ => st

/-- Winner filter of `run_backtest` line 231: trades with positive pnl. -/
def winning_trades_of (trades : List Trade) : List Trade :=
  trades.filter (fun t => decide (0 < t.pnl))

/-- Loser filter of `run_backtest` line 232: trades with pnl at most 0. -/
def losing_trades_of (trades : List Trade) : List Trade :=
  trades.filter (fun t => decide (t.pnl ≤ 0))

/-- Win rate of `run_backtest` line 233:
`len(winning) / len(trades) * 100 if trades else 0`. -/
def win_rate_of (trades : List Trade) : ℚ :=
  if trades = [] then 0
  else ((winning_trades_of trades).length : ℚ) / (trades.length : ℚ) * 100

/-- Max drawdown recomputation of `run_backtest` lines 236-243: running
peak starting at the initial balance, drawdown in percent. -/
def max_drawdown_of (initial : ℚ) (curve : List EquityPoint) : ℚ :=
  (curve.foldl
    (fun acc pt =>
      let peak := if pt.equity > acc.2 then pt.equity else acc.2
      let dd := (peak - pt.equity) / peak * 100
      (if dd > acc.1 then dd else acc.1, peak))
    ((0 : ℚ), initial)).1

/-- Period returns of `run_backtest` lines 246-249: successive relative
changes of the equity curve. -/
def period_returns : List EquityPoint → List ℚ
  | a :: b :: rest => (b.equity - a.equity) / a.equity :: period_returns (b :: rest)
  | _ => []

/-- Sharpe ratio of `run_backtest` lines 251-256.  The code compares
`std_return > 0` where `std_return = variance ** 0.5`; since the variance
is a mean of squares, that test is equivalent to `variance > 0`, which is
what the embedding tests so that only the returned value needs `ℝ`. -/
noncomputable def sharpe_of (returns : List ℚ) : ℝ :=
  if returns = [] then 0
  else
    let avg : ℚ := returns.sum / (returns.length : ℚ)
    let variance : ℚ :=
      (returns.map (fun r => (r - avg) ^ 2)).sum / (returns.length : ℚ)
    if 0 < variance
      then ((avg : ℝ) / Real.sqrt (variance : ℝ)) * Real.sqrt 252
      else 0

/-- Result record of `run_backtest`.  The wall-clock fields `start_date`
and `end_date` (taken from `datetime.now()` or the candle timestamps) are
outside the model and omitted. -/
structure BacktestResult where
  token : String
  initial_balance : ℚ
  final_balance : ℚ
  total_pnl : ℚ
  total_pnl_pct : ℚ
  total_trades : Nat
  winning_trades : Nat
  losing_trades : Nat
  win_rate : ℚ
  max_drawdown : ℚ
  sharpe_ratio : ℝ
  trades : List Trade
  equity_curve : List EquityPoint

/-- Assembly of the result record from the final loop state
(`run_backtest` lines 230-274). -/
noncomputable def mk_result (cfg : EngineConfig) (token_id : String)
    (st : BtState) : BacktestResult :=
  { token := token_id
    initial_balance := cfg.initial_balance
    final_balance := st.balance
    total_pnl := st.balance - cfg.initial_balance
    total_pnl_pct := (st.balance - cfg.initial_balance) / cfg.initial_balance * 100
    total_trades := st.trades.length
    winning_trades := (winning_trades_of st.trades).length
    losing_trades := (losing_trades_of st.trades).length
    win_rate := win_rate_of st.trades
    max_drawdown := max_drawdown_of cfg.initial_balance st.equity_curve
    sharpe_ratio := sharpe_of (period_returns st.equity_curve)
    trades := st.trades
    equity_curve := st.equity_curve }

/-- Embedding of `BacktestEngine.run_backtest` (lines 97-274), cut at the
data-fetch boundary: the candle list obtained from `fetch_historical_data`
is a parameter; an empty list (`if not candles`, the case where no
historical data could be obtained) returns the degenerate result of
lines 117-132. -/
noncomputable def run_backtest (cfg : EngineConfig) (token_id : String)
    (signals : List SignalDict) (candles : List Candle) : BacktestResult :=
  match candles with
  | [] =>
      { token := token_id
        initial_balance := cfg.initial_balance
        final_balance := cfg.initial_balance
        total_pnl := 0
        total_pnl_pct := 0
        total_trades := 0
        winning_trades := 0
        losing_trades := 0
        win_rate := 0
        max_drawdown := 0
        sharpe_ratio := 0
        trades := []
        equity_curve := [] }
  | _ :: _ =>
      mk_result cfg token_id
        (force_close (process_candles cfg token_id signals candles) candles)

/-! Helper lemmas. -/

lemma collect_results_append (xs ys : List (Except String AgentSignal)) :
    collect_results (xs ++ ys) = collect_results xs ++ collect_results ys := by
  induction xs with
  | nil => rfl
  | cons x rest ih => cases x <;> simp [collect_results, ih]

lemma collect_results_eq_filterMap (rs : List (Except String AgentSignal)) :
    collect_results rs = rs.filterMap Except.toOption := by
  induction rs with
  | nil => rfl
  | cons r rest ih => cases r <;> simp [collect_results, Except.toOption, ih]

lemma sum_eq_zero_iff_of_nonneg (l : List ℚ) (h : ∀ x ∈ l, 0 ≤ x) :
    l.sum = 0 ↔ ∀ x ∈ l, x = 0 := by
  induction l with
  | nil => simp
  | cons a rest ih =>
      have ha : 0 ≤ a := h a (by simp)
      have hrest : ∀ x ∈ rest, 0 ≤ x := fun x hx => h x (by simp [hx])
      have hsum : 0 ≤ rest.sum := List.sum_nonneg hrest
      constructor
      · intro h0
        have ha0 : a = 0 := by
          by_contra hne
          have : 0 < a := lt_of_le_of_ne ha (Ne.symm hne)
          have : 0 < a + rest.sum := by linarith
          simp [List.sum_cons] at h0
          linarith
        have hs0 : rest.sum = 0 := by
          simp [List.sum_cons, ha0] at h0
          exact h0
        intro x hx
        rcases List.mem_cons.mp hx with hxa | hxr
        · simpa [hxa] using ha0
        · exact (ih hrest).mp hs0 x hxr
      · intro hall
        have : rest.sum = 0 := (ih hrest).mpr fun x hx => hall x (by simp [hx])
        simp [List.sum_cons, hall a (by simp), this]

/-! Claim theorems. -/

/-- C1: for every list of signals, the aggregate sentiment of the
orchestrator equals the spec classification over b = count(bullish) and
r = count(bearish): very_bullish when b > 2r, else bullish when b > r,
else very_bearish when r > 2b, else bearish when r > b, else neutral; in
particular 3 bullish/1 bearish gives very_bullish, 2/1 bullish, 1/1
neutral, 1/3 very_bearish, and the empty list neutral. -/
theorem C1_sentiment_matches_spec :
    (∀ signals : List AgentSignal,
      calculate_sentiment signals =
        spec_sentiment (bullish_count signals) (bearish_count signals)) ∧
    calculate_sentiment [] = "neutral" ∧
    calculate_sentiment [⟨"a", "bullish", 50⟩, ⟨"b", "bullish", 50⟩,
      ⟨"c", "bullish", 50⟩, ⟨"d", "bearish", 50⟩] = "very_bullish" ∧
    calculate_sentiment [⟨"a", "bullish", 50⟩, ⟨"b", "bullish", 50⟩,
      ⟨"d", "bearish", 50⟩] = "bullish" ∧
    calculate_sentiment [⟨"a", "bullish", 50⟩, ⟨"d", "bearish", 50⟩] = "neutral" ∧
    calculate_sentiment [⟨"a", "bullish", 50⟩, ⟨"b", "bearish", 50⟩,
      ⟨"c", "bearish", 50⟩, ⟨"d", "bearish", 50⟩] = "very_bearish" := by
  refine ⟨?_, by decide, by decide, by decide, by decide, by decide⟩
  intro signals
  cases signals with
  | nil => rfl
  | cons s rest => simp [calculate_sentiment, spec_sentiment, Nat.mul_comm]

/-- C2: the roster sizes match the mode table exactly: full has 5 persona
and 5 crypto strategies (12 total with the 2 management strategies), fast
has 2 and 4 (8 total), degen has 2 and 3 (7 total), and the risk manager
and portfolio manager are present in every mode. -/
theorem C2_roster_sizes (m : Mode) :
    (persona_agents m).length =
      (match m with | Mode.full => 5 | Mode.fast => 2 | Mode.degen => 2) ∧
    (crypto_agents m).length =
      (match m with | Mode.full => 5 | Mode.fast => 4 | Mode.degen => 3) ∧
    (persona_agents m).length + (crypto_agents m).length +
        management_agents.length =
      (match m with | Mode.full => 12 | Mode.fast => 8 | Mode.degen => 7) ∧
    management_agents.length = 2 ∧
    Strategy.riskManager ∈ management_agents ∧
    Strategy.portfolioManager ∈ management_agents := by
  cases m <;> decide

/-- C3: the parallel join returns exactly the signals of the successful
invocations in input roster order (persona results first, then crypto
results), and a failed invocation is dropped without removing or
reordering any sibling result. -/
theorem C3_join_drops_failures :
    (∀ persona_results crypto_results,
      all_signals persona_results crypto_results =
        (persona_results ++ crypto_results).filterMap Except.toOption) ∧
    (∀ (xs : List (Except String AgentSignal)) (e : String) ys,
      collect_results (xs ++ Except.error e :: ys) =
        collect_results xs ++ collect_results ys) := by
  constructor
  · intro pr cr
    simp [all_signals, collect_results_eq_filterMap]
  · intro xs e ys
    rw [collect_results_append]
    rfl

/-- C6 counterexample: a nonempty signal list whose single confidence is 0
lies within the claimed bounds yet has average confidence 0, so the
average is not 0 only for the empty list. -/
theorem C6_counterexample :
    (∀ s ∈ [AgentSignal.mk "a" "neutral" 0],
        0 ≤ s.confidence ∧ s.confidence ≤ 100) ∧
    ¬ (avg_confidence [AgentSignal.mk "a" "neutral" 0] = 0 ↔
        [AgentSignal.mk "a" "neutral" 0] = ([] : List AgentSignal)) := by
  constructor
  · intro s hs
    simp only [List.mem_singleton] at hs
    subst hs
    norm_num
  · intro hiff
    have h0 : avg_confidence [AgentSignal.mk "a" "neutral" 0] = 0 := by
      norm_num [avg_confidence]
    have := hiff.mp h0
    simp at this

/-- C6 amended: with all confidences in [0,100], the average confidence is
in [0,100]; it is 0 when the list is empty, and in general it is 0 exactly
when every confidence in the list is 0 (so a nonempty all-zero list also
averages to 0). -/
theorem C6_avg_confidence_bounds (signals : List AgentSignal)
    (h : ∀ s ∈ signals, 0 ≤ s.confidence ∧ s.confidence ≤ 100) :
    0 ≤ avg_confidence signals ∧ avg_confidence signals ≤ 100 ∧
    (signals = [] → avg_confidence signals = 0) ∧
    (avg_confidence signals = 0 ↔ ∀ s ∈ signals, s.confidence = 0) := by
  by_cases hnil : signals = []
  · subst hnil
    refine ⟨le_refl 0, by norm_num [avg_confidence], fun _ => rfl, ?_⟩
    simp [avg_confidence]
  · have hlen : 0 < (signals.length : ℚ) := by
      have : 0 < signals.length := List.length_pos.mpr hnil
      exact_mod_cast this
    have hmap_nonneg : ∀ x ∈ signals.map (fun s => s.confidence), 0 ≤ x := by
      intro x hx
      rcases List.mem_map.mp hx with ⟨s, hs, rfl⟩
      exact (h s hs).1
    have hsum_nonneg : 0 ≤ (signals.map (fun s => s.confidence)).sum :=
      List.sum_nonneg hmap_nonneg
    have havg : avg_confidence signals =
        (signals.map (fun s => s.confidence)).sum / (signals.length : ℚ) := by
      simp [avg_confidence, hnil]
    refine ⟨?_, ?_, fun hc => absurd hc hnil, ?_⟩
    · rw [havg]
      exact div_nonneg hsum_nonneg (le_of_lt hlen)
    · rw [havg, div_le_iff₀ hlen]
      have hbound := List.sum_le_card_nsmul (signals.map (fun s => s.confidence))
        100 (by
          intro x hx
          rcases List.mem_map.mp hx with ⟨s, hs, rfl⟩
          exact (h s hs).2)
      calc (signals.map (fun s => s.confidence)).sum
          ≤ (signals.map (fun s => s.confidence)).length • (100 : ℚ) := hbound
        _ = 100 * (signals.length : ℚ) := by
            simp [nsmul_eq_mul, mul_comm]
    · rw [havg, div_eq_zero_iff]
      constructor
      · intro hc
        rcases hc with hc | hc
        · intro s hs
          have := (sum_eq_zero_iff_of_nonneg _ hmap_nonneg).mp hc
          exact this s.confidence (List.mem_map.mpr ⟨s, hs, rfl⟩)
        · exact absurd hc (ne_of_gt hlen)
      · intro hall
        left
        refine (sum_eq_zero_iff_of_nonneg _ hmap_nonneg).mpr ?_
        intro x hx
        rcases List.mem_map.mp hx with ⟨s, hs, rfl⟩
        exact hall s hs

/-- C6 witness: the amended bounds applied to a concrete singleton list of
confidence 80. -/
theorem C6_witness :
    0 ≤ avg_confidence [AgentSignal.mk "a" "bullish" 80] ∧
    avg_confidence [AgentSignal.mk "a" "bullish" 80] ≤ 100 ∧
    ([AgentSignal.mk "a" "bullish" 80] = ([] : List AgentSignal) →
      avg_confidence [AgentSignal.mk "a" "bullish" 80] = 0) ∧
    (avg_confidence [AgentSignal.mk "a" "bullish" 80] = 0 ↔
      ∀ s ∈ [AgentSignal.mk "a" "bullish" 80], s.confidence = 0) :=
  C6_avg_confidence_bounds [AgentSignal.mk "a" "bullish" 80] (by
    intro s hs
    simp only [List.mem_singleton] at hs
    subst hs
    norm_num)

/-- C7 counterexample: a snapshot that contains a price field with value 0
still takes the error short-circuit, so absence of the field is not the
sole not-found condition. -/
theorem C7_counterexample :
    (MarketData.mk (some 0)).price ≠ none ∧
    analyze_gate "TOK" "solana" (MarketData.mk (some 0)) =
      AnalyzeGate.errorResult "TOK" "solana" := by
  constructor
  · simp
  · norm_num [analyze_gate, price_falsy]

/-- C7 amended: the full-analysis pipeline short-circuits with the error
result carrying token and chain exactly when the price field is absent or
its value is 0 (Python falsiness of `market_data.get("price")`); it
proceeds exactly when a nonzero price is present. -/
theorem C7_error_iff_price_falsy (token chain : String) (md : MarketData) :
    (analyze_gate token chain md = AnalyzeGate.errorResult token chain ↔
      (md.price = none ∨ md.price = some 0)) ∧
    (analyze_gate token chain md = AnalyzeGate.proceed ↔
      ∃ p, md.price = some p ∧ p ≠ 0) := by
  rcases md with ⟨p⟩
  cases p with
  | none => simp [analyze_gate, price_falsy]
  | some q =>
      by_cases hq : q = 0 <;>
        simp [analyze_gate, price_falsy, hq]

/-! Helper lemmas for the backtest engine. -/

lemma scan_signal_trades (cfg : EngineConfig) (tok : String) (candle : Candle)
    (st : BtState) (sig : SignalDict) :
    (scan_signal cfg tok candle st sig).trades = st.trades := by
  rcases sig with ⟨ts, a, c⟩
  cases ts with
  | none => rfl
  | some t =>
      simp only [scan_signal]
      split_ifs <;> rfl

lemma scan_signal_of_position_some (cfg : EngineConfig) (tok : String)
    (candle : Candle) (st : BtState) (sig : SignalDict) (p : Trade)
    (h : st.position = some p) : scan_signal cfg tok candle st sig = st := by
  rcases sig with ⟨ts, a, c⟩
  cases ts with
  | none => rfl
  | some t =>
      simp only [scan_signal]
      split_ifs with h1 h2
      · exact absurd h2.2.2 (by simp [h])
      · rfl
      · rfl

lemma foldl_scan_trades (cfg : EngineConfig) (tok : String) (candle : Candle)
    (sigs : List SignalDict) (st : BtState) :
    (sigs.foldl (scan_signal cfg tok candle) st).trades = st.trades := by
  induction sigs generalizing st with
  | nil => rfl
  | cons s rest ih => rw [List.foldl_cons, ih, scan_signal_trades]

lemma exit_phase_trades_closed (cfg : EngineConfig) (candle : Candle)
    (st : BtState) (h : ∀ t ∈ st.trades, t.closed = true) :
    ∀ t ∈ (exit_phase cfg candle st).trades, t.closed = true := by
  rcases st with ⟨bal, posn, tr, ec, pk⟩
  cases posn with
  | none => exact h
  | some pos =>
      simp only [exit_phase]
      split_ifs with h1 h2
      all_goals intro t ht
      · rcases List.mem_append.mp ht with h' | h'
        · exact h t h'
        · simp only [List.mem_singleton] at h'
          subst h'
          rfl
      · rcases List.mem_append.mp ht with h' | h'
        · exact h t h'
        · simp only [List.mem_singleton] at h'
          subst h'
          rfl
      · exact h t ht

lemma step_candle_trades_closed (cfg : EngineConfig) (tok : String)
    (sigs : List SignalDict) (st : BtState) (candle : Candle)
    (h : ∀ t ∈ st.trades, t.closed = true) :
    ∀ t ∈ (step_candle cfg tok sigs st candle).trades, t.closed = true := by
  intro t ht
  have hteq : (step_candle cfg tok sigs st candle).trades =
      (exit_phase cfg candle st).trades := by
    simp only [step_candle, equity_phase]
    exact foldl_scan_trades cfg tok candle sigs (exit_phase cfg candle st)
  rw [hteq] at ht
  exact exit_phase_trades_closed cfg candle st h t ht

lemma foldl_step_trades_closed (cfg : EngineConfig) (tok : String)
    (sigs : List SignalDict) (candles : List Candle) (st : BtState)
    (h : ∀ t ∈ st.trades, t.closed = true) :
    ∀ t ∈ (candles.foldl (step_candle cfg tok sigs) st).trades, t.closed = true := by
  induction candles generalizing st with
  | nil => exact h
  | cons c rest ih =>
      rw [List.foldl_cons]
      exact ih (step_candle cfg tok sigs st c)
        (step_candle_trades_closed cfg tok sigs st c h)

lemma force_close_trades_closed (st : BtState) (candles : List Candle)
    (h : ∀ t ∈ st.trades, t.closed = true) :
    ∀ t ∈ (force_close st candles).trades, t.closed = true := by
  rcases st with ⟨bal, posn, tr, ec, pk⟩
  cases posn with
  | none => exact h
  | some pos =>
      cases hl : candles.getLast? with
      | none =>
          simp only [force_close, hl]
          exact h
      | some last =>
          simp only [force_close, hl]
          intro t ht
          rcases List.mem_append.mp ht with h' | h'
          · exact h t h'
          · simp only [List.mem_singleton] at h'
            subst h'
            rfl

/-! More claim theorems. -/

/-- C4: processing a bar with a position open, writing u for the
unrealized return as a fraction of the entry price and slf, tpf for the
stop-loss and take-profit thresholds as fractions (the percent parameters
divided by 100): when u ≤ -slf the position is closed at the close price
of this bar with realized pnl = size × u and size + pnl credited to the
balance; otherwise when u ≥ tpf the same close happens as a take-profit
exit; when neither threshold is crossed the state is unchanged.  The
stop-loss branch has no take-profit exclusion, so when both thresholds are
crossed it is the stop-loss exit that is taken. -/
theorem C4_exit_rules (cfg : EngineConfig) (candle : Candle) (st : BtState)
    (pos : Trade) (hpos : st.position = some pos) :
    (frac_return pos candle.close ≤ -(cfg.stop_loss_pct / 100) →
      exit_phase cfg candle st =
        { st with
            balance := st.balance + pos.size +
              pos.size * frac_return pos candle.close
            trades := st.trades ++
              [{ pos with
                  closed := true
                  close_price := some candle.close
                  close_timestamp := some candle.timestamp
                  pnl_pct := unrealized_pnl_pct pos candle.close
                  pnl := pos.size * frac_return pos candle.close }]
            position := none }) ∧
    (¬ frac_return pos candle.close ≤ -(cfg.stop_loss_pct / 100) →
      cfg.take_profit_pct / 100 ≤ frac_return pos candle.close →
      exit_phase cfg candle st =
        { st with
            balance := st.balance + pos.size +
              pos.size * frac_return pos candle.close
            trades := st.trades ++
              [{ pos with
                  closed := true
                  close_price := some candle.close
                  close_timestamp := some candle.timestamp
                  pnl_pct := unrealized_pnl_pct pos candle.close
                  pnl := pos.size * frac_return pos candle.close }]
            position := none }) ∧
    (¬ frac_return pos candle.close ≤ -(cfg.stop_loss_pct / 100) →
      ¬ cfg.take_profit_pct / 100 ≤ frac_return pos candle.close →
      exit_phase cfg candle st = st) := by
  have h100 : (0 : ℚ) < 100 := by norm_num
  have hsl : frac_return pos candle.close ≤ -(cfg.stop_loss_pct / 100) ↔
      unrealized_pnl_pct pos candle.close ≤ -cfg.stop_loss_pct := by
    rw [frac_return, ← neg_div, div_le_div_iff_of_pos_right h100]
  have htp : cfg.take_profit_pct / 100 ≤ frac_return pos candle.close ↔
      cfg.take_profit_pct ≤ unrealized_pnl_pct pos candle.close := by
    rw [frac_return, div_le_div_iff_of_pos_right h100]
  rcases st with ⟨bal, posn, tr, ec, pk⟩
  obtain rfl : posn = some pos := hpos
  refine ⟨?_, ?_, ?_⟩
  · intro h1
    simp only [exit_phase]
    rw [if_pos (hsl.mp h1)]
    rfl
  · intro h1 h2
    simp only [exit_phase]
    rw [if_neg (fun hc => h1 (hsl.mpr hc)), if_pos (htp.mp h2)]
    rfl
  · intro h1 h2
    simp only [exit_phase]
    rw [if_neg (fun hc => h1 (hsl.mpr hc)), if_neg (fun hc => h2 (htp.mpr hc))]

/-- Concrete inputs for the C4 witness: an open buy at 100 with size 1000
and a bar closing at 90, a 10 percent loss crossing the 5 percent stop. -/
def cfg4 : EngineConfig := ⟨10000, 10, 5, 15⟩

/-- Open position of the C4 witness. -/
def pos4 : Trade :=
  { token := "tok", action := "buy", price := 100, size := 1000,
    timestamp := 0, signal_confidence := 70 }

/-- Loop state of the C4 witness. -/
def st4 : BtState :=
  { balance := 9000, position := some pos4, trades := [],
    equity_curve := [], peak_balance := 10000 }

/-- Bar of the C4 witness. -/
def candle4 : Candle := ⟨7000, 90⟩

/-- C4 witness: the stop-loss branch evaluated on the concrete inputs. -/
theorem C4_witness :
    exit_phase cfg4 candle4 st4 =
      { st4 with
          balance := st4.balance + pos4.size +
            pos4.size * frac_return pos4 candle4.close
          trades := st4.trades ++
            [{ pos4 with
                closed := true
                close_price := some candle4.close
                close_timestamp := some candle4.timestamp
                pnl_pct := unrealized_pnl_pct pos4 candle4.close
                pnl := pos4.size * frac_return pos4 candle4.close }]
          position := none } :=
  (C4_exit_rules cfg4 candle4 st4 pos4 rfl).1 (by
    norm_num [frac_return, unrealized_pnl_pct, pos4, candle4, cfg4])

/-- Concrete engine parameters shared by the C5 and C8 witnesses. -/
def cfg5 : EngineConfig := ⟨10000, 10, 5, 15⟩

/-- Two bars: entry at 100, then a 20 percent rise triggering the take
profit, leaving exactly one winning trade. -/
def candles5 : List Candle := [⟨0, 100⟩, ⟨10000, 120⟩]

/-- One qualifying buy signal at the first bar. -/
def sigs5 : List SignalDict := [⟨some 0, some "buy", some 70⟩]

/-- C5 counterexample: a run with exactly one trade, a winner, reports
win_rate = 100 — the ratio times 100, not the ratio 1 the claim states. -/
theorem C5_counterexample :
    (run_backtest cfg5 "tok" sigs5 candles5).total_trades = 1 ∧
    (run_backtest cfg5 "tok" sigs5 candles5).winning_trades = 1 ∧
    (run_backtest cfg5 "tok" sigs5 candles5).win_rate = 100 ∧
    (run_backtest cfg5 "tok" sigs5 candles5).win_rate ≠
      ((run_backtest cfg5 "tok" sigs5 candles5).winning_trades : ℚ) /
        ((run_backtest cfg5 "tok" sigs5 candles5).total_trades : ℚ) := by
  refine ⟨?_, ?_, ?_, ?_⟩ <;>
    norm_num +decide [run_backtest, mk_result, process_candles, step_candle,
      exit_phase, scan_signal, equity_phase, init_state, unrealized_pnl_pct,
      close_trade, lower_string, force_close, win_rate_of, winning_trades_of,
      losing_trades_of, frac_return, cfg5, candles5, sigs5]

/-- C5 amended: the reported win_rate is the number of winning trades
divided by the total number of trades multiplied by 100 (a percentage),
and 0 when there are no trades, the divisor never being zero. -/
theorem C5_win_rate_formula (cfg : EngineConfig) (token_id : String)
    (signals : List SignalDict) (candles : List Candle) :
    (run_backtest cfg token_id signals candles).win_rate =
      (if (run_backtest cfg token_id signals candles).total_trades = 0 then 0
       else ((run_backtest cfg token_id signals candles).winning_trades : ℚ) /
          ((run_backtest cfg token_id signals candles).total_trades : ℚ) * 100) := by
  cases candles with
  | nil => simp [run_backtest]
  | cons c cs =>
      simp only [run_backtest, mk_result]
      by_cases h :
        (force_close (process_candles cfg token_id signals (c :: cs)) (c :: cs)).trades = []
      · simp [win_rate_of, h]
      · have hlen :
            (force_close (process_candles cfg token_id signals (c :: cs))
              (c :: cs)).trades.length ≠ 0 :=
          fun hc => h (List.length_eq_zero.mp hc)
        simp [win_rate_of, h, hlen]

/-- The trades a loop state accounts for: the realized list followed by
the open position, if any. -/
def accounted_trades (st : BtState) : List Trade :=
  st.trades ++ st.position.toList

/-- The creation-time fields of a trade: the fields set when a position is
opened (`run_backtest` lines 185-192) and never changed by a close. -/
def opened_fields (t : Trade) : String × String × ℚ × ℚ × Int × ℚ :=
  (t.token, t.action, t.price, t.size, t.timestamp, t.signal_confidence)

lemma accounted_exit_phase (cfg : EngineConfig) (candle : Candle)
    (st : BtState) :
    (accounted_trades (exit_phase cfg candle st)).map opened_fields =
      (accounted_trades st).map opened_fields := by
  rcases st with ⟨bal, posn, tr, ec, pk⟩
  cases posn with
  | none => rfl
  | some pos =>
      simp only [exit_phase]
      split_ifs with h1 h2
      · simp [accounted_trades, close_trade, opened_fields]
      · simp [accounted_trades, close_trade, opened_fields]
      · rfl

lemma accounted_scan_signal (cfg : EngineConfig) (tok : String)
    (candle : Candle) (st : BtState) (sig : SignalDict) :
    (accounted_trades st).map opened_fields <+:
      (accounted_trades (scan_signal cfg tok candle st sig)).map opened_fields := by
  rcases sig with ⟨ts, a, cf⟩
  cases ts with
  | none => exact List.prefix_refl _
  | some t =>
      simp only [scan_signal]
      split_ifs with h1 h2
      · simp only [accounted_trades, h2.2.2, Option.toList_none,
          List.append_nil, Option.toList_some, List.map_append]
        exact List.prefix_append _ _
      · exact List.prefix_refl _
      · exact List.prefix_refl _

lemma accounted_equity_phase (candle : Candle) (st : BtState) :
    accounted_trades (equity_phase candle st) = accounted_trades st := rfl

lemma accounted_foldl_scan (cfg : EngineConfig) (tok : String)
    (candle : Candle) (sigs : List SignalDict) (st : BtState) :
    (accounted_trades st).map opened_fields <+:
      (accounted_trades
        (sigs.foldl (scan_signal cfg tok candle) st)).map opened_fields := by
  induction sigs generalizing st with
  | nil => exact List.prefix_refl _
  | cons s rest ih =>
      rw [List.foldl_cons]
      exact (accounted_scan_signal cfg tok candle st s).trans
        (ih (scan_signal cfg tok candle st s))

lemma accounted_step_candle (cfg : EngineConfig) (tok : String)
    (sigs : List SignalDict) (st : BtState) (candle : Candle) :
    (accounted_trades st).map opened_fields <+:
      (accounted_trades (step_candle cfg tok sigs st candle)).map opened_fields := by
  have h1 := accounted_exit_phase cfg candle st
  have h2 := accounted_foldl_scan cfg tok candle sigs (exit_phase cfg candle st)
  rw [h1] at h2
  simpa only [step_candle, accounted_equity_phase] using h2

lemma accounted_foldl_step (cfg : EngineConfig) (tok : String)
    (sigs : List SignalDict) (candles : List Candle) (st : BtState) :
    (accounted_trades st).map opened_fields <+:
      (accounted_trades
        (candles.foldl (step_candle cfg tok sigs) st)).map opened_fields := by
  induction candles generalizing st with
  | nil => exact List.prefix_refl _
  | cons c rest ih =>
      rw [List.foldl_cons]
      exact (accounted_step_candle cfg tok sigs st c).trans
        (ih (step_candle cfg tok sigs st c))

lemma force_close_of_none (st : BtState) (candles : List Candle)
    (h : st.position = none) : force_close st candles = st := by
  rcases st with ⟨bal, posn, tr, ec, pk⟩
  obtain rfl : posn = none := h
  cases hl : candles.getLast? with
  | none => simp only [force_close, hl]
  | some last => simp only [force_close, hl]

lemma force_close_of_some (st : BtState) (pos : Trade)
    (candles : List Candle) (last : Candle) (h : st.position = some pos)
    (hl : candles.getLast? = some last) :
    force_close st candles =
      { st with
          balance := st.balance + pos.size + pos.size * frac_return pos last.close
          trades := st.trades ++
            [{ pos with
                closed := true
                close_price := some last.close
                close_timestamp := some last.timestamp
                pnl_pct := unrealized_pnl_pct pos last.close
                pnl := pos.size * frac_return pos last.close }]
          position := none } := by
  rcases st with ⟨bal, posn, tr, ec, pk⟩
  obtain rfl : posn = some pos := h
  simp only [force_close, hl]
  rfl

lemma accounted_force_close (st : BtState) (candles : List Candle)
    (last : Candle) (hl : candles.getLast? = some last) :
    (accounted_trades (force_close st candles)).map opened_fields =
      (accounted_trades st).map opened_fields ∧
    (force_close st candles).position = none := by
  cases hpos : st.position with
  | none =>
      rw [force_close_of_none st candles hpos]
      exact ⟨rfl, hpos⟩
  | some pos =>
      rw [force_close_of_some st pos candles last hpos hl]
      constructor
      · simp [accounted_trades, hpos, opened_fields]
      · rfl

/-- C8: (1) a signal scan never opens a position while one is open — the
state is returned unchanged, so at most one trade is ever open; (2) a
position still open when the loop ends is force-closed at the close price
and timestamp of the final bar, with pnl = size × return credited, and
appended to the trade list; (3) the result trade list is exactly the list
realized by the bar loop followed by the force-closed version of the open
position, if any — nothing is dropped at the end; (4) the trades
accounted after any number i of processed bars — realized or still open —
appear by their creation fields, in order, as a prefix of the result
trade list, so every opened trade appears in it; (5) every trade in the
result list is closed. -/
theorem C8_position_invariants :
    (∀ (cfg : EngineConfig) (tok : String) (candle : Candle) (st : BtState)
        (sig : SignalDict) (p : Trade), st.position = some p →
        scan_signal cfg tok candle st sig = st) ∧
    (∀ (st : BtState) (pos : Trade) (candles : List Candle) (last : Candle),
        st.position = some pos → candles.getLast? = some last →
        force_close st candles =
          { st with
              balance := st.balance + pos.size +
                pos.size * frac_return pos last.close
              trades := st.trades ++
                [{ pos with
                    closed := true
                    close_price := some last.close
                    close_timestamp := some last.timestamp
                    pnl_pct := unrealized_pnl_pct pos last.close
                    pnl := pos.size * frac_return pos last.close }]
              position := none }) ∧
    (∀ (cfg : EngineConfig) (tok : String) (signals : List SignalDict)
        (c : Candle) (cs : List Candle) (last : Candle),
        (c :: cs).getLast? = some last →
        (run_backtest cfg tok signals (c :: cs)).trades =
          (process_candles cfg tok signals (c :: cs)).trades ++
            (process_candles cfg tok signals (c :: cs)).position.toList.map
              (fun p =>
                { p with
                    closed := true
                    close_price := some last.close
                    close_timestamp := some last.timestamp
                    pnl_pct := unrealized_pnl_pct p last.close
                    pnl := p.size * frac_return p last.close })) ∧
    (∀ (cfg : EngineConfig) (tok : String) (signals : List SignalDict)
        (c : Candle) (cs : List Candle) (i : Nat),
        (accounted_trades (((c :: cs).take i).foldl
            (step_candle cfg tok signals) (init_state cfg))).map opened_fields <+:
          ((run_backtest cfg tok signals (c :: cs)).trades.map opened_fields)) ∧
    (∀ (cfg : EngineConfig) (tok : String) (signals : List SignalDict)
        (candles : List Candle) (t : Trade),
        t ∈ (run_backtest cfg tok signals candles).trades → t.closed = true) := by
  refine ⟨?_, ?_, ?_, ?_, ?_⟩
  · intro cfg tok candle st sig p h
    exact scan_signal_of_position_some cfg tok candle st sig p h
  · intro st pos candles last h hl
    exact force_close_of_some st pos candles last h hl
  · intro cfg tok signals c cs last hl
    have hrun : (run_backtest cfg tok signals (c :: cs)).trades =
        (force_close (process_candles cfg tok signals (c :: cs)) (c :: cs)).trades :=
      rfl
    cases hpos : (process_candles cfg tok signals (c :: cs)).position with
    | none =>
        rw [hrun, force_close_of_none _ _ hpos]
        simp
    | some p =>
        rw [hrun, force_close_of_some _ p _ last hpos hl]
        simp
  · intro cfg tok signals c cs i
    have hfold : process_candles cfg tok signals (c :: cs) =
        ((c :: cs).drop i).foldl (step_candle cfg tok signals)
          (((c :: cs).take i).foldl (step_candle cfg tok signals)
            (init_state cfg)) := by
      rw [process_candles, ← List.foldl_append, List.take_append_drop]
    have hpre := accounted_foldl_step cfg tok signals ((c :: cs).drop i)
      (((c :: cs).take i).foldl (step_candle cfg tok signals) (init_state cfg))
    rw [← hfold] at hpre
    have hl : (c :: cs).getLast? =
        some ((c :: cs).getLast (List.cons_ne_nil c cs)) :=
      List.getLast?_eq_getLast _ _
    have hacc := accounted_force_close
      (process_candles cfg tok signals (c :: cs)) (c :: cs) _ hl
    have hres : (run_backtest cfg tok signals (c :: cs)).trades.map opened_fields =
        (accounted_trades (process_candles cfg tok signals (c :: cs))).map
          opened_fields := by
      rw [← hacc.1]
      have hrun : (run_backtest cfg tok signals (c :: cs)).trades =
          (force_close (process_candles cfg tok signals (c :: cs))
            (c :: cs)).trades := rfl
      rw [hrun, accounted_trades, hacc.2]
      simp
    rw [hres]
    exact hpre
  · intro cfg tok signals candles t ht
    cases candles with
    | nil => simp [run_backtest] at ht
    | cons c cs =>
        have hclosed : ∀ t ∈ (force_close
            (process_candles cfg tok signals (c :: cs)) (c :: cs)).trades,
            t.closed = true := by
          refine force_close_trades_closed _ _ ?_
          refine foldl_step_trades_closed cfg tok signals (c :: cs)
            (init_state cfg) ?_
          intro t' ht'
          simp [init_state] at ht'
        exact hclosed t ht

/-- Two bars whose second crosses neither the 5 percent stop nor the 15
percent take profit, leaving the position open when the loop ends. -/
def candlesW : List Candle := [⟨0, 100⟩, ⟨10000, 104⟩]

/-- One qualifying buy signal at the first bar. -/
def sigsW : List SignalDict := [⟨some 0, some "buy", some 70⟩]

/-- Trade force-closed at the final bar by the run on `cfg5`, `sigsW`,
`candlesW`: closed at the final close 104 with pnl 40. -/
def trW : Trade :=
  { token := "tok", action := "buy", price := 100, size := 1000,
    timestamp := 0, signal_confidence := 70, pnl := 40, pnl_pct := 4,
    closed := true, close_price := some 104, close_timestamp := some 10000 }

/-- C8 witness: the scan leaves the concrete open-position state `st4`
untouched; force-closing `st4` against `candlesW` appends the position
closed at the final close 104; and the trade of the concrete run — closed
only by the forced close at the last bar — is closed in the result. -/
theorem C8_witness :
    scan_signal cfg5 "tok" ⟨0, 100⟩ st4 ⟨some 0, some "buy", some 70⟩ = st4 ∧
    force_close st4 candlesW =
      { st4 with
          balance := st4.balance + pos4.size +
            pos4.size * frac_return pos4 104
          trades := st4.trades ++
            [{ pos4 with
                closed := true
                close_price := some (104 : ℚ)
                close_timestamp := some (10000 : Int)
                pnl_pct := unrealized_pnl_pct pos4 104
                pnl := pos4.size * frac_return pos4 104 }]
          position := none } ∧
    trW.closed = true := by
  refine ⟨C8_position_invariants.1 cfg5 "tok" ⟨0, 100⟩ st4
      ⟨some 0, some "buy", some 70⟩ pos4 rfl,
    C8_position_invariants.2.1 st4 pos4 candlesW ⟨10000, 104⟩ rfl rfl, ?_⟩
  have htr : (run_backtest cfg5 "tok" sigsW candlesW).trades = [trW] := by
    norm_num +decide [run_backtest, mk_result, process_candles, step_candle,
      exit_phase, scan_signal, equity_phase, init_state, unrealized_pnl_pct,
      close_trade, lower_string, force_close, cfg5, candlesW, sigsW, trW]
  exact C8_position_invariants.2.2.2.2 cfg5 "tok" sigsW candlesW trW
    (htr ▸ List.mem_singleton.mpr rfl)

/-- C9: a backtest invocation with no obtainable candles returns the
well-formed degenerate result: zero trades, zero rates and ratios, and a
final balance equal to the initial balance, instead of raising. -/
theorem C9_no_data_degenerate (cfg : EngineConfig) (tok : String)
    (signals : List SignalDict) :
    run_backtest cfg tok signals [] =
      { token := tok
        initial_balance := cfg.initial_balance
        final_balance := cfg.initial_balance
        total_pnl := 0
        total_pnl_pct := 0
        total_trades := 0
        winning_trades := 0
        losing_trades := 0
        win_rate := 0
        max_drawdown := 0
        sharpe_ratio := 0
        trades := []
        equity_curve := [] } := rfl

/-- Engine parameters of the C10 scenario. -/
def cfg10 : EngineConfig := ⟨10000, 10, 5, 15⟩

/-- Two bars: entry at 100, then a 10 percent drop at the second bar. -/
def candles10 : List Candle := [⟨0, 100⟩, ⟨7000, 90⟩]

/-- One qualifying buy signal per bar; the first is outside the one-hour
window of the second bar, the second is exactly on it. -/
def sigs10 : List SignalDict :=
  [⟨some 0, some "buy", some 70⟩, ⟨some 7000, some "buy", some 70⟩]

/-- C10: on this candle sequence and signal timeline the simulator closes
the open position by stop-loss at the second bar (close timestamp 7000)
and, because the exit check runs before the signal scan within the bar,
immediately reopens at that same bar at its close price 90 and timestamp
7000; a signal exactly 3600 seconds away from a bar does not qualify
(the window is strict). -/
theorem C10_same_bar_exit_and_reentry :
    process_candles cfg10 "tok" sigs10 candles10 =
      { balance := 8910
        position := some
          { token := "tok", action := "buy", price := 90, size := 990,
            timestamp := 7000, signal_confidence := 70 }
        trades :=
          [{ token := "tok", action := "buy", price := 100, size := 1000,
             timestamp := 0, signal_confidence := 70, pnl := -100,
             pnl_pct := -10, closed := true, close_price := some 90,
             close_timestamp := some 7000 }]
        equity_curve := [⟨0, 10000, 100⟩, ⟨7000, 9900, 90⟩]
        peak_balance := 10000 } ∧
    scan_signal cfg10 "tok" ⟨3600, 100⟩ (init_state cfg10)
      ⟨some 0, some "buy", some 70⟩ = init_state cfg10 := by
  constructor <;>
    norm_num +decide [process_candles, step_candle, exit_phase, scan_signal,
      equity_phase, init_state, unrealized_pnl_pct, close_trade, lower_string,
      cfg10, candles10, sigs10]

end GICM
